import Mathlib

/-!
Verification of the EOF1 (EIP-3540) container-header parser from
`core/vm/eof.go` of ewasm/go-ethereum.

The byte buffer is embedded as `List Nat` (each element a byte value).
Go's `(eof1Header, error)` pair return is embedded as
`eof1Header × Option EOFErr`; the section-declaration loop of
`readEOF1Header` is embedded as the structurally recursive `sectionScan`
over the buffer suffix starting at the cursor, carrying the cursor value
`i` so that the final total-size check can be expressed exactly as in the
source.
-/

namespace EOF

/-- The EOF format byte, `var eofFormatByte byte = 0xEF`. -/
def eofFormatByte : Nat := 0xEF

/-- The EOF magic, `var eofMagic = [...]byte{0xCA, 0xFE}`. -/
def eofMagic : List Nat := [0xCA, 0xFE]

/-- The EOF1 version byte, `var eof1Version byte = 1`. -/
def eof1Version : Nat := 1

/-- The parsed header: `type eof1Header struct { codeSize, dataSize uint16 }`. -/
structure eof1Header where
  codeSize : Nat
  dataSize : Nat
deriving Repr, DecidableEq

/-- The closed error taxonomy of the parser (`ErrEOF1...` values in the source). -/
inductive EOFErr where
  | InvalidFormatByte
  | InvalidMagic
  | InvalidVersion
  | MultipleCodeSections
  | CodeSectionSizeMissing
  | EmptyCodeSection
  | DataSectionBeforeCodeSection
  | MultipleDataSections
  | DataSectionSizeMissing
  | EmptyDataSection
  | UnknownSection
  | CodeSectionMissing
  | InvalidTotalSize
deriving Repr, DecidableEq

/-- `binary.BigEndian.Uint16` on two bytes. -/
def beUint16 (b0 b1 : Nat) : Nat := b0 * 256 + b1

/-- `hasFormatByte(code)`: `len(code) != 0 && code[0] == eofFormatByte`. -/
def hasFormatByte (code : List Nat) : Bool :=
  decide (code.length ≠ 0) && (code.getD 0 0 == eofFormatByte)

/-- `hasEOFMagic(code)`: `1+magicLen <= codeLen && bytes.Equal(code[1:1+magicLen], eofMagic[:])`. -/
def hasEOFMagic (code : List Nat) : Bool :=
  decide (1 + eofMagic.length ≤ code.length)
    && ((code.drop 1).take eofMagic.length == eofMagic)

/-- `isEOFCode(code)`: `hasFormatByte(code) && hasEOFMagic(code)`. -/
def isEOFCode (code : List Nat) : Bool :=
  hasFormatByte code && hasEOFMagic code

/-- The `sectionLoop` of `readEOF1Header`, embedded over the buffer suffix at
the cursor. `sectionScan i header l` runs the loop with current cursor `i`,
current header record `header`, and `l` the bytes of the buffer from offset
`i` on. It returns the Go function's early `return` error, or the cursor and
header with which the loop finishes (terminator seen, or buffer exhausted). -/
def sectionScan (i : Nat) (header : eof1Header) : List Nat → Except EOFErr (Nat × eof1Header)
  | [] => .ok (i, header)
  | sectionKind :: rest =>
    if sectionKind = 0 then
      .ok (i + 1, header)
    else if sectionKind = 1 then
      -- Only 1 code section is allowed.
      if header.codeSize ≠ 0 then .error .MultipleCodeSections
      else
        -- Code section size must be present.
        match rest with
        | s0 :: s1 :: rest2 =>
          -- Code section size must not be 0.
          if beUint16 s0 s1 = 0 then .error .EmptyCodeSection
          else sectionScan (i + 3) { header with codeSize := beUint16 s0 s1 } rest2
        | _ => .error .CodeSectionSizeMissing
    else if sectionKind = 2 then
      -- Data section is allowed only after code section.
      if header.codeSize = 0 then .error .DataSectionBeforeCodeSection
      -- Only 1 data section is allowed.
      else if header.dataSize ≠ 0 then .error .MultipleDataSections
      else
        -- Data section size must be present.
        match rest with
        | d0 :: d1 :: rest2 =>
          -- Data section size must not be 0.
          if beUint16 d0 d1 = 0 then .error .EmptyDataSection
          else sectionScan (i + 3) { header with dataSize := beUint16 d0 d1 } rest2
        | _ => .error .DataSectionSizeMissing
    else .error .UnknownSection

/-- `readEOF1Header(code)`: returns the pair `(eof1Header{...}, err)` exactly as
the Go function does — every error site returns the zero header. -/
def readEOF1Header (code : List Nat) : eof1Header × Option EOFErr :=
  if ¬ hasFormatByte code then (⟨0, 0⟩, some .InvalidFormatByte)
  else if ¬ hasEOFMagic code then (⟨0, 0⟩, some .InvalidMagic)
  else
    let codeLen := code.length
    let i := 1 + eofMagic.length
    if codeLen ≤ i ∨ code.getD i 0 ≠ eof1Version then (⟨0, 0⟩, some .InvalidVersion)
    else
      match sectionScan (i + 1) ⟨0, 0⟩ (code.drop (i + 1)) with
      | .error e => (⟨0, 0⟩, some e)
      | .ok (j, header) =>
        -- 1 code section is required.
        if header.codeSize = 0 then (⟨0, 0⟩, some .CodeSectionMissing)
        -- Declared section sizes must correspond to real size.
        else if j + header.codeSize + header.dataSize ≠ codeLen then
          (⟨0, 0⟩, some .InvalidTotalSize)
        else (header, none)

/-- `validateEOF(code)`: `_, err := readEOF1Header(code); return err == nil`. -/
def validateEOF (code : List Nat) : Bool :=
  (readEOF1Header code).2.isNone

/-- `readValidEOF1Header(code)`: reads the header at fixed offsets, assuming the
buffer was already validated. Out-of-range reads are modelled by `List.getD`
with default `0` (Go would panic); the in-bounds theorems show the default is
never consulted on validated input. -/
def readValidEOF1Header (code : List Nat) : eof1Header :=
  let codeSizeOffset := 3 + eofMagic.length
  let codeSize := beUint16 (code.getD codeSizeOffset 0) (code.getD (codeSizeOffset + 1) 0)
  if code.getD (codeSizeOffset + 2) 0 == 2 then
    let dataSizeOffset := codeSizeOffset + 3
    { codeSize := codeSize
      dataSize := beUint16 (code.getD dataSizeOffset 0) (code.getD (dataSizeOffset + 1) 0) }
  else
    { codeSize := codeSize, dataSize := 0 }

/-- Predicate describing the runs of the `sectionLoop` of `readEOF1Header`
that exhaust the buffer: `scanExhausts header l = true` iff the loop, started
with header record `header` on remaining bytes `l`, runs to the end of the
buffer without reading a terminator byte and without any error return (the
loop condition `i < codeLen` becomes false). It mirrors the recursion of
`sectionScan` branch for branch: `true` exactly on the buffer-exhausted
return, `false` on the terminator return and on every error return. -/
def scanExhausts (header : eof1Header) : List Nat → Bool
  | [] => true
  | sectionKind :: rest =>
    if sectionKind = 0 then false
    else if sectionKind = 1 then
      if header.codeSize ≠ 0 then false
      else
        match rest with
        | s0 :: s1 :: rest2 =>
          if beUint16 s0 s1 = 0 then false
          else scanExhausts { header with codeSize := beUint16 s0 s1 } rest2
        | _ => false
    else if sectionKind = 2 then
      if header.codeSize = 0 then false
      else if header.dataSize ≠ 0 then false
      else
        match rest with
        | d0 :: d1 :: rest2 =>
          if beUint16 d0 d1 = 0 then false
          else scanExhausts { header with dataSize := beUint16 d0 d1 } rest2
        | _ => false
    else false

/-- Indexing into a dropped suffix is indexing at the shifted offset. -/
theorem getD_drop (code : List Nat) (i k : Nat) :
    (code.drop i).getD k 0 = code.getD (i + k) 0 := by
  simp [List.getD_eq_getElem?_getD, List.getElem?_drop]

/-- Success elimination for `readEOF1Header`: a successful parse means the
format byte, magic and version checks all passed, the section scan finished
with exactly the returned header, the code size is nonzero, and the final
cursor plus the declared sizes equals the buffer length. -/
theorem readEOF1Header_ok_elim (code : List Nat) (hdr : eof1Header)
    (h : readEOF1Header code = (hdr, none)) :
    hasFormatByte code = true ∧ hasEOFMagic code = true ∧
    3 < code.length ∧ code.getD 3 0 = eof1Version ∧
    ∃ j, sectionScan 4 ⟨0, 0⟩ (code.drop 4) = .ok (j, hdr) ∧
      hdr.codeSize ≠ 0 ∧ j + hdr.codeSize + hdr.dataSize = code.length := by
  have hml : eofMagic.length = 2 := rfl
  simp only [readEOF1Header, hml] at h
  split at h
  · simp at h
  · split at h
    · simp at h
    · split at h
      · simp at h
      · rename_i hfb hmg hver
        push_neg at hver
        split at h
        · simp at h
        next j header hscan =>
          split at h
          · simp at h
          · split at h
            · simp at h
            next hcs htot =>
              rw [Prod.mk.injEq] at h
              obtain ⟨rfl, -⟩ := h
              refine ⟨by simpa using hfb, by simpa using hmg, ?_, ?_, j, hscan, hcs, by omega⟩
              · omega
              · exact hver.2

theorem sectionScan_nil (i : Nat) (h : eof1Header) :
    sectionScan i h [] = .ok (i, h) := rfl

theorem sectionScan_term (i : Nat) (h : eof1Header) (rest : List Nat) :
    sectionScan i h (0 :: rest) = .ok (i + 1, h) := by
  rw [sectionScan.eq_def]; simp

theorem sectionScan_code (i : Nat) (h : eof1Header) (s0 s1 : Nat) (rest : List Nat)
    (hcs : h.codeSize = 0) :
    sectionScan i h (1 :: s0 :: s1 :: rest) =
      if beUint16 s0 s1 = 0 then .error .EmptyCodeSection
      else sectionScan (i + 3) { h with codeSize := beUint16 s0 s1 } rest := by
  rw [sectionScan.eq_def]; simp [hcs]

theorem sectionScan_code_multi (i : Nat) (h : eof1Header) (rest : List Nat)
    (hcs : h.codeSize ≠ 0) :
    sectionScan i h (1 :: rest) = .error .MultipleCodeSections := by
  rw [sectionScan.eq_def]; simp [hcs]

theorem sectionScan_code_short0 (i : Nat) (h : eof1Header) (hcs : h.codeSize = 0) :
    sectionScan i h [1] = .error .CodeSectionSizeMissing := by
  rw [sectionScan.eq_def]; simp [hcs]

theorem sectionScan_code_short1 (i : Nat) (h : eof1Header) (s0 : Nat) (hcs : h.codeSize = 0) :
    sectionScan i h [1, s0] = .error .CodeSectionSizeMissing := by
  rw [sectionScan.eq_def]; simp [hcs]

theorem sectionScan_data_before (i : Nat) (h : eof1Header) (rest : List Nat)
    (hcs : h.codeSize = 0) :
    sectionScan i h (2 :: rest) = .error .DataSectionBeforeCodeSection := by
  rw [sectionScan.eq_def]; simp [hcs]

theorem sectionScan_data_multi (i : Nat) (h : eof1Header) (rest : List Nat)
    (hcs : h.codeSize ≠ 0) (hds : h.dataSize ≠ 0) :
    sectionScan i h (2 :: rest) = .error .MultipleDataSections := by
  rw [sectionScan.eq_def]; simp [hcs, hds]

theorem sectionScan_data (i : Nat) (h : eof1Header) (d0 d1 : Nat) (rest : List Nat)
    (hcs : h.codeSize ≠ 0) (hds : h.dataSize = 0) :
    sectionScan i h (2 :: d0 :: d1 :: rest) =
      if beUint16 d0 d1 = 0 then .error .EmptyDataSection
      else sectionScan (i + 3) { h with dataSize := beUint16 d0 d1 } rest := by
  rw [sectionScan.eq_def]; simp [hcs, hds]

theorem sectionScan_data_short0 (i : Nat) (h : eof1Header)
    (hcs : h.codeSize ≠ 0) (hds : h.dataSize = 0) :
    sectionScan i h [2] = .error .DataSectionSizeMissing := by
  rw [sectionScan.eq_def]; simp [hcs, hds]

theorem sectionScan_data_short1 (i : Nat) (h : eof1Header) (d0 : Nat)
    (hcs : h.codeSize ≠ 0) (hds : h.dataSize = 0) :
    sectionScan i h [2, d0] = .error .DataSectionSizeMissing := by
  rw [sectionScan.eq_def]; simp [hcs, hds]

theorem sectionScan_unknown (i : Nat) (h : eof1Header) (k : Nat) (rest : List Nat)
    (h0 : k ≠ 0) (h1 : k ≠ 1) (h2 : k ≠ 2) :
    sectionScan i h (k :: rest) = .error .UnknownSection := by
  rw [sectionScan.eq_def]; simp [h0, h1, h2]

/-- Full inversion of a successful parse: the accepted buffer's suffix from
offset 4 is a code-section declaration followed by either an immediate
terminator or a single data-section declaration and a terminator, and the
declared sizes tile the rest of the buffer exactly. -/
theorem readEOF1Header_ok_cases (code : List Nat) (hdr : eof1Header)
    (h : readEOF1Header code = (hdr, none)) :
    ∃ s0 s1 rest, code.drop 4 = 1 :: s0 :: s1 :: rest ∧
      hdr.codeSize = beUint16 s0 s1 ∧ hdr.codeSize ≠ 0 ∧
      ((∃ payload, rest = 0 :: payload ∧ hdr.dataSize = 0 ∧
          8 + hdr.codeSize = code.length) ∨
       (∃ d0 d1 payload, rest = 2 :: d0 :: d1 :: 0 :: payload ∧
          hdr.dataSize = beUint16 d0 d1 ∧ hdr.dataSize ≠ 0 ∧
          11 + hdr.codeSize + hdr.dataSize = code.length)) := by
  obtain ⟨hfb, hmg, hlen, hver, j, hscan, hcs, htot⟩ := readEOF1Header_ok_elim code hdr h
  have hlen4 : code.length = 4 + (code.drop 4).length := by
    rw [List.length_drop]; omega
  rcases hd : code.drop 4 with - | ⟨k, l1⟩
  · rw [hd, sectionScan_nil] at hscan
    simp at hscan
    obtain ⟨-, rfl⟩ := hscan
    exact absurd rfl hcs
  rw [hd] at hscan hlen4
  by_cases hk0 : k = 0
  · subst hk0
    rw [sectionScan_term] at hscan
    simp at hscan
    obtain ⟨-, rfl⟩ := hscan
    exact absurd rfl hcs
  by_cases hk1 : k = 1
  case neg =>
    by_cases hk2 : k = 2
    · subst hk2
      rw [sectionScan_data_before _ _ _ rfl] at hscan
      simp at hscan
    · rw [sectionScan_unknown _ _ _ _ hk0 hk1 hk2] at hscan
      simp at hscan
  case pos =>
  subst hk1
  rcases l1 with - | ⟨s0, l2⟩
  · rw [sectionScan_code_short0 _ _ rfl] at hscan; simp at hscan
  rcases l2 with - | ⟨s1, l3⟩
  · rw [sectionScan_code_short1 _ _ _ rfl] at hscan; simp at hscan
  rw [sectionScan_code _ _ _ _ _ rfl] at hscan
  by_cases hbe : beUint16 s0 s1 = 0
  · rw [if_pos hbe] at hscan; simp at hscan
  rw [if_neg hbe] at hscan
  simp only [List.length_cons] at hlen4
  rcases l3 with - | ⟨k2, l4⟩
  · rw [sectionScan_nil] at hscan
    simp at hscan
    obtain ⟨rfl, rfl⟩ := hscan
    simp at htot hcs hlen4
    omega
  by_cases hk20 : k2 = 0
  · subst hk20
    rw [sectionScan_term] at hscan
    simp at hscan
    obtain ⟨rfl, rfl⟩ := hscan
    refine ⟨s0, s1, 0 :: l4, rfl, by simp, hbe, Or.inl ⟨l4, rfl, rfl, ?_⟩⟩
    simpa using htot
  by_cases hk21 : k2 = 1
  · subst hk21
    rw [sectionScan_code_multi _ _ _ hbe] at hscan
    simp at hscan
  by_cases hk22 : k2 = 2
  case neg =>
    rw [sectionScan_unknown _ _ _ _ hk20 hk21 hk22] at hscan
    simp at hscan
  case pos =>
  subst hk22
  rcases l4 with - | ⟨d0, l5⟩
  · rw [sectionScan_data_short0 _ _ hbe rfl] at hscan; simp at hscan
  rcases l5 with - | ⟨d1, l6⟩
  · rw [sectionScan_data_short1 _ _ _ hbe rfl] at hscan; simp at hscan
  rw [sectionScan_data _ _ _ _ _ hbe rfl] at hscan
  by_cases hbd : beUint16 d0 d1 = 0
  · rw [if_pos hbd] at hscan; simp at hscan
  rw [if_neg hbd] at hscan
  rcases l6 with - | ⟨k3, l7⟩
  · rw [sectionScan_nil] at hscan
    simp at hscan
    obtain ⟨rfl, rfl⟩ := hscan
    simp at htot hcs hlen4
    omega
  by_cases hk30 : k3 = 0
  · subst hk30
    rw [sectionScan_term] at hscan
    simp at hscan
    obtain ⟨rfl, rfl⟩ := hscan
    refine ⟨s0, s1, 2 :: d0 :: d1 :: 0 :: l7, rfl, by simp, hbe,
      Or.inr ⟨d0, d1, l7, rfl, by simp, hbd, ?_⟩⟩
    simpa using htot
  by_cases hk31 : k3 = 1
  · subst hk31
    rw [sectionScan_code_multi _ _ _ hbe] at hscan
    simp at hscan
  by_cases hk32 : k3 = 2
  · subst hk32
    rw [sectionScan_data_multi _ _ _ hbe hbd] at hscan
    simp at hscan
  · rw [sectionScan_unknown _ _ _ _ hk30 hk31 hk32] at hscan
    simp at hscan

/-- Every error return site of `readEOF1Header` returns the zero header,
exactly as each `return eof1Header{}, Err...` in the source. -/
theorem readEOF1Header_error_elim (code : List Nat) (hdr : eof1Header) (e : EOFErr)
    (h : readEOF1Header code = (hdr, some e)) : hdr = ⟨0, 0⟩ := by
  simp only [readEOF1Header] at h
  split at h
  · exact (congrArg Prod.fst h).symm
  · split at h
    · exact (congrArg Prod.fst h).symm
    · split at h
      · exact (congrArg Prod.fst h).symm
      · split at h
        · exact (congrArg Prod.fst h).symm
        · split at h
          · exact (congrArg Prod.fst h).symm
          · split at h
            · exact (congrArg Prod.fst h).symm
            · exact Option.noConfusion (congrArg Prod.snd h)

/-- A buffer-exhausting run of the section loop is a successful `sectionScan`
run whose final cursor is the start cursor plus the whole remaining length. -/
theorem scanExhausts_sectionScan :
    ∀ (n : Nat) (l : List Nat), l.length ≤ n → ∀ (h : eof1Header),
      scanExhausts h l = true → ∀ i, ∃ hdr, sectionScan i h l = .ok (i + l.length, hdr) := by
  intro n
  induction n with
  | zero =>
    intro l hl h hx i
    have : l = [] := List.length_eq_zero.mp (Nat.le_zero.mp hl)
    subst this
    exact ⟨h, by simp [sectionScan_nil]⟩
  | succ n ih =>
    intro l hl h hx i
    rcases l with - | ⟨k, rest⟩
    · exact ⟨h, by simp [sectionScan_nil]⟩
    rw [scanExhausts.eq_def] at hx
    by_cases hk0 : k = 0
    · simp [hk0] at hx
    by_cases hk1 : k = 1
    case pos =>
      subst hk1
      simp only [if_neg hk0, if_pos rfl] at hx
      by_cases hcs : h.codeSize = 0
      case neg => simp [hcs] at hx
      rcases rest with - | ⟨s0, - | ⟨s1, rest2⟩⟩
      · simp [hcs] at hx
      · simp [hcs] at hx
      by_cases hbe : beUint16 s0 s1 = 0
      · simp [hcs, hbe] at hx
      have hx2 : scanExhausts { h with codeSize := beUint16 s0 s1 } rest2 = true := by
        simpa [hcs, hbe] using hx
      have hlen2 : rest2.length ≤ n := by simp at hl; omega
      obtain ⟨hdr, hsc⟩ := ih rest2 hlen2 _ hx2 (i + 3)
      refine ⟨hdr, ?_⟩
      rw [sectionScan_code _ _ _ _ _ hcs, if_neg hbe, hsc]
      congr 1
      rw [Prod.mk.injEq]
      exact ⟨by simp [List.length_cons]; omega, rfl⟩
    case neg =>
      by_cases hk2 : k = 2
      case pos =>
        subst hk2
        by_cases hcs : h.codeSize = 0
        · simp [hcs] at hx
        by_cases hds : h.dataSize = 0
        case neg => simp [hcs, hds] at hx
        rcases rest with - | ⟨d0, - | ⟨d1, rest2⟩⟩
        · simp [hcs, hds] at hx
        · simp [hcs, hds] at hx
        by_cases hbd : beUint16 d0 d1 = 0
        · simp [hcs, hds, hbd] at hx
        have hx2 : scanExhausts { h with dataSize := beUint16 d0 d1 } rest2 = true := by
          simpa [hcs, hds, hbd] using hx
        have hlen2 : rest2.length ≤ n := by simp at hl; omega
        obtain ⟨hdr, hsc⟩ := ih rest2 hlen2 _ hx2 (i + 3)
        refine ⟨hdr, ?_⟩
        rw [sectionScan_data _ _ _ _ _ hcs hds, if_neg hbd, hsc]
        congr 1
        rw [Prod.mk.injEq]
        exact ⟨by simp [List.length_cons]; omega, rfl⟩
      case neg =>
        simp [hk0, hk1, hk2] at hx

/-- The trusted reader in terms of plain byte offsets: it reads the code size
at offsets 5-6 and, when the byte at offset 7 is the Data kind, the data size
at offsets 8-9. -/
theorem readValidEOF1Header_eq (code : List Nat) :
    readValidEOF1Header code =
      if code.getD 7 0 = 2 then
        { codeSize := beUint16 (code.getD 5 0) (code.getD 6 0),
          dataSize := beUint16 (code.getD 8 0) (code.getD 9 0) }
      else
        { codeSize := beUint16 (code.getD 5 0) (code.getD 6 0), dataSize := 0 } := by
  by_cases h7 : code.getD 7 0 = 2
  · simp [readValidEOF1Header, eofMagic, h7]
  · simp [readValidEOF1Header, eofMagic, h7]

/-- Claim C1: `readEOF1Header` succeeds only if the final scan cursor plus the
returned `codeSize` plus `dataSize` equals the buffer length exactly, and when
the scan finishes with a recorded code section but that sum mismatches the
length, the parser fails with `InvalidTotalSize`. -/
theorem readEOF1Header_total_size_exact (code : List Nat) :
    (∀ hdr, readEOF1Header code = (hdr, none) →
      ∃ j, sectionScan 4 ⟨0, 0⟩ (code.drop 4) = .ok (j, hdr) ∧
        j + hdr.codeSize + hdr.dataSize = code.length) ∧
    (∀ j hdr, hasFormatByte code = true → hasEOFMagic code = true →
      3 < code.length → code.getD 3 0 = eof1Version →
      sectionScan 4 ⟨0, 0⟩ (code.drop 4) = .ok (j, hdr) → hdr.codeSize ≠ 0 →
      j + hdr.codeSize + hdr.dataSize ≠ code.length →
      readEOF1Header code = (⟨0, 0⟩, some .InvalidTotalSize)) := by
  constructor
  · intro hdr h
    obtain ⟨-, -, -, -, j, hscan, -, htot⟩ := readEOF1Header_ok_elim code hdr h
    exact ⟨j, hscan, htot⟩
  · intro j hdr hfb hmg hlen hver hscan hcs htot
    have hml : eofMagic.length = 2 := rfl
    simp only [readEOF1Header, hml]
    rw [if_neg (by simp [hfb]), if_neg (by simp [hmg]),
        if_neg (by push_neg; exact ⟨by omega, hver⟩)]
    rw [show (1 + 2 + 1 : Nat) = 4 from rfl]
    rw [hscan]
    simp [hcs, htot]

/-- Claim C1 witness: a buffer with two trailing bytes after the declared
layout is rejected with `InvalidTotalSize`. -/
theorem readEOF1Header_total_size_exact_witness :
    8 + (2 : Nat) + 0 ≠ 12 ∧
    readEOF1Header [0xEF, 0xCA, 0xFE, 1, 1, 0, 2, 0, 0x60, 0, 0xDE, 0xAD] =
      (⟨0, 0⟩, some .InvalidTotalSize) :=
  ⟨by decide,
    (readEOF1Header_total_size_exact _).2 8 ⟨2, 0⟩ (by decide) (by decide) (by decide)
      (by decide) (by rfl) (by decide) (by decide)⟩

/-- Claim C2: on any buffer accepted by `readEOF1Header`, the trusted reader
`readValidEOF1Header` reads only in-bounds fixed offsets (the buffer has at
least 8 bytes, and at least 10 when the byte at offset 7 is the Data kind)
and returns the same header. -/
theorem trusted_reader_agrees (code : List Nat) (hdr : eof1Header)
    (h : readEOF1Header code = (hdr, none)) :
    8 ≤ code.length ∧ (code.getD 7 0 = 2 → 10 ≤ code.length) ∧
    readValidEOF1Header code = hdr := by
  obtain ⟨s0, s1, rest, hd, hcseq, hcs, hcase⟩ := readEOF1Header_ok_cases code hdr h
  have hgd : ∀ k, code.getD (4 + k) 0 = (1 :: s0 :: s1 :: rest).getD k 0 := by
    intro k; rw [← getD_drop, hd]
  have g5 : code.getD 5 0 = s0 := by simpa using hgd 1
  have g6 : code.getD 6 0 = s1 := by simpa using hgd 2
  rcases hcase with ⟨payload, hrest, hds0, hlenA⟩ | ⟨d0, d1, payload, hrest, hdseq, hds, hlenB⟩
  · subst hrest
    have g7 : code.getD 7 0 = 0 := by simpa using hgd 3
    refine ⟨by omega, ?_, ?_⟩
    · intro h2; rw [g7] at h2; exact absurd h2 (by decide)
    · rw [readValidEOF1Header_eq, if_neg (by rw [g7]; decide), g5, g6]
      cases hdr
      simp only at hcseq hds0
      simp [hcseq, hds0]
  · subst hrest
    have g7 : code.getD 7 0 = 2 := by simpa using hgd 3
    have g8 : code.getD 8 0 = d0 := by simpa using hgd 4
    have g9 : code.getD 9 0 = d1 := by simpa using hgd 5
    refine ⟨by omega, fun _ => by omega, ?_⟩
    rw [readValidEOF1Header_eq, if_pos g7, g5, g6, g8, g9]
    cases hdr
    simp only at hcseq hdseq
    simp [hcseq, hdseq]

/-- Claim C2 witness: on a valid container with a data section, the parser and
the trusted reader return the same header. -/
theorem trusted_reader_agrees_witness :
    readEOF1Header [0xEF, 0xCA, 0xFE, 1, 1, 0, 2, 2, 0, 1, 0, 0x60, 0x60, 0xAA] =
      (⟨2, 1⟩, none) ∧
    readValidEOF1Header [0xEF, 0xCA, 0xFE, 1, 1, 0, 2, 2, 0, 1, 0, 0x60, 0x60, 0xAA] =
      ⟨2, 1⟩ :=
  ⟨by decide,
    (trusted_reader_agrees _ ⟨2, 1⟩ (by decide)).2.2⟩

/-- Claim C3: `validateEOF` returns true exactly when `readEOF1Header` returns
no error on the same buffer. -/
theorem validateEOF_iff_ok (code : List Nat) :
    validateEOF code = true ↔ (readEOF1Header code).2 = none := by
  simp [validateEOF, Option.isNone_iff_eq_none]

/-- Claim C4: on a Data (kind 2) section-kind byte, the scan applies exactly
these checks in this order: no code section yet fails
`DataSectionBeforeCodeSection`; an already-recorded data section fails
`MultipleDataSections`; fewer than 2 remaining bytes fail
`DataSectionSizeMissing`; a zero big-endian 16-bit size fails
`EmptyDataSection`; otherwise the size is recorded and the cursor advances
past the 2 size bytes. -/
theorem data_section_checks (i : Nat) (h : eof1Header) (rest : List Nat) :
    (h.codeSize = 0 → sectionScan i h (2 :: rest) = .error .DataSectionBeforeCodeSection) ∧
    (h.codeSize ≠ 0 → h.dataSize ≠ 0 → sectionScan i h (2 :: rest) = .error .MultipleDataSections) ∧
    (h.codeSize ≠ 0 → h.dataSize = 0 → rest.length < 2 →
      sectionScan i h (2 :: rest) = .error .DataSectionSizeMissing) ∧
    (∀ d0 d1 rest2, h.codeSize ≠ 0 → h.dataSize = 0 → rest = d0 :: d1 :: rest2 →
      (beUint16 d0 d1 = 0 → sectionScan i h (2 :: rest) = .error .EmptyDataSection) ∧
      (beUint16 d0 d1 ≠ 0 →
        sectionScan i h (2 :: rest) =
          sectionScan (i + 3) { h with dataSize := beUint16 d0 d1 } rest2)) := by
  refine ⟨fun hcs => sectionScan_data_before _ _ _ hcs,
    fun hcs hds => sectionScan_data_multi _ _ _ hcs hds, ?_, ?_⟩
  · intro hcs hds hlen
    rcases rest with - | ⟨d0, - | ⟨d1, r⟩⟩
    · exact sectionScan_data_short0 _ _ hcs hds
    · exact sectionScan_data_short1 _ _ _ hcs hds
    · exact absurd hlen (by simp)
  · intro d0 d1 rest2 hcs hds hrest
    subst hrest
    rw [sectionScan_data _ _ _ _ _ hcs hds]
    constructor
    · intro hbd; rw [if_pos hbd]
    · intro hbd; rw [if_neg hbd]

/-- Claim C4 witness: a Data kind byte with no code section recorded fails
with `DataSectionBeforeCodeSection`. -/
theorem data_section_checks_witness :
    (⟨0, 0⟩ : eof1Header).codeSize = 0 ∧
    sectionScan 4 ⟨0, 0⟩ [2] = .error .DataSectionBeforeCodeSection :=
  ⟨rfl, (data_section_checks 4 ⟨0, 0⟩ []).1 rfl⟩

/-- Claim C5: when the section scan exhausts the buffer without a terminator,
`readEOF1Header` still errors: `CodeSectionMissing` if no code section was
recorded, `InvalidTotalSize` otherwise; no such input is accepted. -/
theorem scan_exhausted_rejected (code : List Nat)
    (hfb : hasFormatByte code = true) (hmg : hasEOFMagic code = true)
    (hlen : 3 < code.length) (hver : code.getD 3 0 = eof1Version)
    (hex : scanExhausts ⟨0, 0⟩ (code.drop 4) = true) :
    ∃ hdr, sectionScan 4 ⟨0, 0⟩ (code.drop 4) = .ok (code.length, hdr) ∧
      readEOF1Header code =
        (⟨0, 0⟩, some (if hdr.codeSize = 0 then EOFErr.CodeSectionMissing
                       else EOFErr.InvalidTotalSize)) := by
  obtain ⟨hdr, hsc⟩ := scanExhausts_sectionScan (code.drop 4).length _ le_rfl _ hex 4
  have hlen4 : 4 + (code.drop 4).length = code.length := by
    rw [List.length_drop]; omega
  rw [hlen4] at hsc
  refine ⟨hdr, hsc, ?_⟩
  have hml : eofMagic.length = 2 := rfl
  simp only [readEOF1Header, hml]
  rw [if_neg (by simp [hfb]), if_neg (by simp [hmg]),
      if_neg (by push_neg; exact ⟨by omega, hver⟩)]
  rw [show (1 + 2 + 1 : Nat) = 4 from rfl]
  rw [hsc]
  by_cases hcs : hdr.codeSize = 0
  · simp [hcs]
  · have hne : code.length + hdr.codeSize + hdr.dataSize ≠ code.length := by omega
    simp [hcs, hne]

/-- Claim C5 witness: a buffer whose declarations run off the end of the
buffer (a complete code-section declaration, then nothing) is rejected. -/
theorem scan_exhausted_rejected_witness :
    ∃ hdr, sectionScan 4 ⟨0, 0⟩ (List.drop 4 [0xEF, 0xCA, 0xFE, 1, 1, 0, 2]) = .ok (7, hdr) ∧
      readEOF1Header [0xEF, 0xCA, 0xFE, 1, 1, 0, 2] =
        (⟨0, 0⟩, some (if hdr.codeSize = 0 then EOFErr.CodeSectionMissing
                       else EOFErr.InvalidTotalSize)) :=
  scan_exhausted_rejected _ (by decide) (by decide) (by decide) (by decide) (by decide)

/-- Claim C6: `readEOF1Header` is atomic: every error return carries the zero
header, and every success carries a populated header (nonzero code size). -/
theorem readEOF1Header_atomic (code : List Nat) :
    ((readEOF1Header code).2 ≠ none → (readEOF1Header code).1 = ⟨0, 0⟩) ∧
    ((readEOF1Header code).2 = none → (readEOF1Header code).1.codeSize ≠ 0) := by
  rcases hr : readEOF1Header code with ⟨hdr, err⟩
  rcases err with - | e
  · refine ⟨fun hne => absurd rfl hne, fun _ => ?_⟩
    obtain ⟨-, -, -, -, j, -, hcs, -⟩ := readEOF1Header_ok_elim code hdr hr
    exact hcs
  · exact ⟨fun _ => readEOF1Header_error_elim code hdr e hr, fun hn => Option.noConfusion hn⟩

/-- Claim C6 witness: on the empty buffer the parser errors and the returned
header is the zero header. -/
theorem readEOF1Header_atomic_witness :
    (readEOF1Header []).2 ≠ none ∧ (readEOF1Header []).1 = ⟨0, 0⟩ :=
  ⟨by decide, (readEOF1Header_atomic []).1 (by decide)⟩

/-- Claim C7: `hasFormatByte` is true iff the buffer is non-empty and starts
with 0xEF; `hasEOFMagic` is true iff the buffer has at least 3 bytes with
0xCA, 0xFE at offsets 1 and 2; `isEOFCode` is their conjunction. -/
theorem format_detector_spec (code : List Nat) :
    (hasFormatByte code = true ↔ code ≠ [] ∧ code.getD 0 0 = 0xEF) ∧
    (hasEOFMagic code = true ↔
      3 ≤ code.length ∧ code.getD 1 0 = 0xCA ∧ code.getD 2 0 = 0xFE) ∧
    (isEOFCode code = true ↔ hasFormatByte code = true ∧ hasEOFMagic code = true) := by
  refine ⟨?_, ?_, ?_⟩
  · simp [hasFormatByte, eofFormatByte, List.length_eq_zero]
  · rcases code with - | ⟨a, - | ⟨b, - | ⟨c, rest⟩⟩⟩ <;>
      simp [hasEOFMagic, eofMagic, List.getD]
  · simp [isEOFCode]

/-- Claim C8: the empty buffer fails with `InvalidFormatByte`; the single byte
0xEF fails with `InvalidMagic`. -/
theorem boundary_empty_and_ef :
    readEOF1Header [] = (⟨0, 0⟩, some .InvalidFormatByte) ∧
    readEOF1Header [0xEF] = (⟨0, 0⟩, some .InvalidMagic) :=
  ⟨rfl, rfl⟩

/-- Claim C9: the minimal valid container EFCAFE010100010000 parses with
codeSize 1 and dataSize 0. -/
theorem minimal_valid_container :
    readEOF1Header [0xEF, 0xCA, 0xFE, 0x01, 0x01, 0x00, 0x01, 0x00, 0x00] =
      ({ codeSize := 1, dataSize := 0 }, none) := rfl

/-- Claim C10: every accepted buffer has length at least 9, a Code kind byte
at offset 4, a nonzero code size equal to the big-endian 16-bit value at
offsets 5-6, and a nonzero data size exactly when the byte at offset 7 is the
Data kind, in which case the data size is the big-endian 16-bit value at
offsets 8-9 and the buffer has length at least 12. -/
theorem accepted_buffer_invariant (code : List Nat) (hdr : eof1Header)
    (h : readEOF1Header code = (hdr, none)) :
    9 ≤ code.length ∧ code.getD 4 0 = 1 ∧ hdr.codeSize ≠ 0 ∧
    hdr.codeSize = beUint16 (code.getD 5 0) (code.getD 6 0) ∧
    (hdr.dataSize ≠ 0 ↔ code.getD 7 0 = 2) ∧
    (code.getD 7 0 = 2 →
      hdr.dataSize = beUint16 (code.getD 8 0) (code.getD 9 0) ∧ 12 ≤ code.length) := by
  obtain ⟨s0, s1, rest, hd, hcseq, hcs, hcase⟩ := readEOF1Header_ok_cases code hdr h
  have hgd : ∀ k, code.getD (4 + k) 0 = (1 :: s0 :: s1 :: rest).getD k 0 := by
    intro k; rw [← getD_drop, hd]
  have g4 : code.getD 4 0 = 1 := by simpa using hgd 0
  have g5 : code.getD 5 0 = s0 := by simpa using hgd 1
  have g6 : code.getD 6 0 = s1 := by simpa using hgd 2
  rcases hcase with ⟨payload, hrest, hds0, hlenA⟩ | ⟨d0, d1, payload, hrest, hdseq, hds, hlenB⟩
  · subst hrest
    have g7 : code.getD 7 0 = 0 := by simpa using hgd 3
    refine ⟨by omega, g4, hcs, by rw [g5, g6]; exact hcseq, ?_, ?_⟩
    · rw [g7]; simp [hds0]
    · intro h2; rw [g7] at h2; exact absurd h2 (by decide)
  · subst hrest
    have g7 : code.getD 7 0 = 2 := by simpa using hgd 3
    have g8 : code.getD 8 0 = d0 := by simpa using hgd 4
    have g9 : code.getD 9 0 = d1 := by simpa using hgd 5
    refine ⟨by omega, g4, hcs, by rw [g5, g6]; exact hcseq, ?_, ?_⟩
    · rw [g7]; simp [hds]
    · intro _
      exact ⟨by rw [g8, g9]; exact hdseq, by omega⟩

/-- Claim C10 witness: a 9-byte accepted container satisfies the length bound
and has the Code kind byte at offset 4. -/
theorem accepted_buffer_invariant_witness :
    readEOF1Header [0xEF, 0xCA, 0xFE, 1, 1, 0, 1, 0, 0x60] = (⟨1, 0⟩, none) ∧
    9 ≤ ([0xEF, 0xCA, 0xFE, 1, 1, 0, 1, 0, 0x60] : List Nat).length ∧
    ([0xEF, 0xCA, 0xFE, 1, 1, 0, 1, 0, 0x60] : List Nat).getD 4 0 = 1 :=
  ⟨by decide,
    (accepted_buffer_invariant _ ⟨1, 0⟩ (by decide)).1,
    (accepted_buffer_invariant _ ⟨1, 0⟩ (by decide)).2.1⟩

end EOF
